import Mathlib

/-!
Shallow embedding of the paper discovery and content-extraction pipeline
(`SearchService` and `PaperService` in `src/services/search/search.service.ts`).

Strings are modelled as `String` / `List Char`; JavaScript string builtins
(`indexOf`, `lastIndexOf`, `slice`, `trim`, `replace` with a character class)
are embedded by their ECMA-262 semantics.  External collaborators (the
Odysseus renderer, the PDF extractor, the download service and the Google
Scholar cursor) are oracles passed as parameters; a fallible call is an
`Except String String` value.  Effects that the specification talks about
(renderer invocations, download invocations, the `close` call of the shared
rendering session) are made explicit as event lists returned alongside the
result.
-/

/-- The whitespace class used by JavaScript `trim` and by the `\s` character
class, restricted to the ASCII part (space, tab, LF, VT, FF, CR). -/
def jsWhitespace (c : Char) : Bool :=
  c = ' ' || c = Char.ofNat 9 || c = Char.ofNat 10 ||
  c = Char.ofNat 11 || c = Char.ofNat 12 || c = Char.ofNat 13

/-- JavaScript `String.prototype.trim` on a character list. -/
def jsTrim (l : List Char) : List Char :=
  (((l.dropWhile jsWhitespace).reverse).dropWhile jsWhitespace).reverse

/-- Clamp one argument of JavaScript `slice` to a valid index of a string of
length `len`: negative indices count from the end, results are clamped into
`[0, len]`. -/
def jsSliceIdx (len : Nat) (i : Int) : Nat :=
  if i < 0 then (max (len + i) 0).toNat else min i.toNat len

/-- JavaScript `String.prototype.slice` on a character list. -/
def jsSlice (l : List Char) (a b : Int) : List Char :=
  (l.take (jsSliceIdx l.length b)).drop (jsSliceIdx l.length a)

/-- JavaScript `String.prototype.indexOf(c, fr)` for a single-character
needle: the smallest index `i ≥ fr` with `l[i] = c`, or `-1` when none
exists. -/
def jsIndexOf (l : List Char) (c : Char) (fr : Nat) : Int :=
  match ((List.range l.length).filter
      (fun i => decide (fr ≤ i) && decide (l.getD i ' ' = c))).head? with
  | some i => (i : Int)
  | none => -1

/-- JavaScript `String.prototype.lastIndexOf(c, fr)` for a single-character
needle: the largest index `i ≤ fr` with `l[i] = c`, or `-1` when none
exists. -/
def jsLastIndexOf (l : List Char) (c : Char) (fr : Nat) : Int :=
  match ((List.range l.length).filter
      (fun i => decide (i ≤ fr) && decide (l.getD i ' ' = c))).getLast? with
  | some i => (i : Int)
  | none => -1

/-- `PaperService.getSentence`: the sentence around index `index` of `text`,
computed exactly as in the source:
`text.slice(text.lastIndexOf('.', index) + 1, text.indexOf('.', index) + 1).trim()`. -/
def getSentence (text : List Char) (index : Nat) : List Char :=
  jsTrim (jsSlice text (jsLastIndexOf text '.' index + 1) (jsIndexOf text '.' index + 1))

/-- The sentence boundaries exactly as the specification words them: the
start is the character immediately following the nearest period strictly
before `index` (or the document start if none); the end is the position of
the next period strictly after `index` plus one (or the document end if
none); then trim. -/
def sentenceClaimed (text : List Char) (index : Nat) : List Char :=
  let start := match ((List.range text.length).filter
      (fun i => decide (i < index) && decide (text.getD i ' ' = '.'))).getLast? with
    | some i => i + 1
    | none => 0
  let stop := match ((List.range text.length).filter
      (fun i => decide (index < i) && decide (text.getD i ' ' = '.'))).head? with
    | some j => j + 1
    | none => text.length
  jsTrim ((text.take stop).drop start)

/-- The nearest period at a position `≤ index` of `text`, when one exists. -/
def lastPeriodLe (text : List Char) (index : Nat) : Option Nat :=
  ((List.range text.length).filter
      (fun i => decide (i ≤ index) && decide (text.getD i ' ' = '.'))).getLast?

/-- The nearest period at a position `≥ index` of `text`, when one exists. -/
def firstPeriodGe (text : List Char) (index : Nat) : Option Nat :=
  ((List.range text.length).filter
      (fun i => decide (index ≤ i) && decide (text.getD i ' ' = '.'))).head?

/-- The sentence boundaries the code actually computes, stated
declaratively: the start is the character after the nearest period at or
before `index` (or the document start); when a period exists at or after
`index` the sentence ends just after the nearest such period and is
trimmed; when none exists the result is the empty string. -/
def sentenceAmended (text : List Char) (index : Nat) : List Char :=
  let start := match lastPeriodLe text index with
    | some i => i + 1
    | none => 0
  match firstPeriodGe text index with
  | some j => jsTrim ((text.take (j + 1)).drop start)
  | none => []

example : getSentence "ab. cd ef. gh".data 5 = "cd ef.".data := by decide
example : getSentence "hello".data 1 = [] := by decide
example : sentenceClaimed "hello".data 1 = "hello".data := by decide
example : sentenceAmended "hello".data 1 = [] := by decide
example : getSentence "a.b".data 1 = [] := by decide

/-! ## Data model of `PaperService` -/

/-- The source descriptor of a paper (`IPaperMetadata.paper`): its kind
(`"pdf"` or another content type) and direct URL. -/
structure PaperSource where
  type : String
  url : String
deriving DecidableEq, Repr

/-- `IPaperMetadata`: the paper reference handed to `PaperService`. -/
structure IPaperMetadata where
  title : String
  url : String
  paper : PaperSource
deriving DecidableEq, Repr

/-- `IPaperServiceConfig`: the two configuration flags `PaperService`
reads. -/
structure IPaperServiceConfig where
  processPdf : Bool
  skipCaptcha : Bool
deriving DecidableEq, Repr

/-- The Odysseus browser-automation collaborator, as used by
`PaperService`: `getTextContent url selector solveCaptcha` renders a URL and
either returns its text or fails. -/
structure Odysseus where
  getTextContent : String → Option String → Bool → Except String String

/-- The PDF-extraction collaborator: `getTextContent url` converts a PDF URL
into plain text or fails. -/
structure PdfService where
  getTextContent : String → Except String String

/-- `PaperService.getWebContent`: render `url` through Odysseus, solving the
captcha unless `skipCaptcha` is set. -/
def getWebContent (config : IPaperServiceConfig) (odysseus : Odysseus)
    (url : String) : Except String String :=
  odysseus.getTextContent url none (!config.skipCaptcha)

/-- `PaperService.getPdfContent`: extract text from a PDF URL. -/
def getPdfContent (pdfService : PdfService) (url : String) : Except String String :=
  pdfService.getTextContent url

/-- `PaperService.getTextContent`.  In legacy mode (`processPdf` disabled)
the main URL is rendered (empty string for an empty main URL).  Otherwise
the primary source is tried inside the try/catch — PDF extraction for a
`pdf` source, rendering of a non-empty source URL otherwise — and on
failure (or when there is no primary attempt) the main URL is rendered
outside of any catch, with the empty string returned for an empty main
URL. -/
def getTextContent (config : IPaperServiceConfig) (odysseus : Odysseus)
    (pdfService : PdfService) (m : IPaperMetadata) : Except String String :=
  if !config.processPdf then
    if m.url ≠ "" then getWebContent config odysseus m.url else .ok ""
  else
    let primary : Option (Except String String) :=
      if m.paper.type = "pdf" then some (getPdfContent pdfService m.paper.url)
      else if m.paper.url ≠ "" then some (getWebContent config odysseus m.paper.url)
      else none
    match primary with
    | some (.ok s) => .ok s
    | some (.error _) | none =>
        if m.url = "" then .ok ""
        else getWebContent config odysseus m.url

/-! ## `PaperService.findInPaper` -/

/-- One step of the insertion-ordered `Map` used by `findInPaper`: append
`sentence` to the sentence list of `key`, creating the entry at the end when
`key` is new (JavaScript `Map` iteration preserves first-insertion
order). -/
def insertSentence (items : List (String × List String)) (key : String)
    (sentence : String) : List (String × List String) :=
  if items.any (fun p => p.1 = key) then
    items.map (fun p => if p.1 = key then (p.1, p.2 ++ [sentence]) else p)
  else items ++ [(key, [sentence])]

/-- The grouping loop of `findInPaper` over the match sequence produced by
`matchAll`: each match is a pair of matched literal and start index. -/
def findInPaperCore (content : List Char) (ms : List (String × Nat)) :
    List (String × List String) :=
  ms.foldl
    (fun acc m => insertSentence acc m.1 (String.mk (getSentence content m.2))) []

/-- `PaperService.findInPaper`: extract the text of the paper, run the
caller's pattern over it (the `matchAll` oracle stands for the JavaScript
regex engine applied with flags `gi`, yielding the matched literals with
their start indices in order), and group the matches; any error caught
yields the empty list. -/
def findInPaper (config : IPaperServiceConfig) (odysseus : Odysseus)
    (pdfService : PdfService) (matchAll : String → String → List (String × Nat))
    (m : IPaperMetadata) (findRegex : String) : List (String × List String) :=
  match getTextContent config odysseus pdfService m with
  | .error _ => []
  | .ok content => findInPaperCore content.data (matchAll findRegex content)

/-- The distinct elements of a list in order of first occurrence, given the
elements already seen. -/
def firstSeenAux (seen : List String) : List String → List String
  | [] => []
  | x :: xs =>
      if x ∈ seen then firstSeenAux seen xs
      else x :: firstSeenAux (x :: seen) xs

/-- The grouping the specification describes: one entry per distinct matched
literal in first-occurrence order, whose sentence list collects the sentence
of every occurrence of that literal in order. -/
def canonicalGroup (content : List Char) (ms : List (String × Nat)) :
    List (String × List String) :=
  (firstSeenAux [] (ms.map Prod.fst)).map
    (fun k => (k, (ms.filter (fun m => m.1 = k)).map
      (fun m => String.mk (getSentence content m.2))))

example :
    findInPaperCore "x. aa bb aa.".data [("aa", 3), ("bb", 6), ("aa", 9)] =
      [("aa", ["aa bb aa.", "aa bb aa."]), ("bb", ["aa bb aa."])] := by decide

/-! ## `PaperService.download` -/

/-- The title sanitisation of `PaperService.download`:
`title.replace(/[\s\x2f]/g, _)` — every whitespace or slash character
becomes an underscore. -/
def sanitizeTitle (title : String) : String :=
  String.mk (title.data.map (fun c => if jsWhitespace c || c = '/' then '_' else c))

/-- `PaperService.download`: returns the list of calls made to the download
collaborator, each a pair of source URL and destination path.  A non-`pdf`
source is skipped; a `pdf` source produces exactly one call with destination
`outputDir ++ "/" ++ sanitised title ++ "." ++ paper.type`. -/
def download (m : IPaperMetadata) (outputDir : String) : List (String × String) :=
  if m.paper.type ≠ "pdf" then []
  else [(m.paper.url,
    outputDir ++ "/" ++ sanitizeTitle m.title ++ "." ++ m.paper.type)]

example :
    download ⟨"a b/c", "u", ⟨"pdf", "http://p"⟩⟩ "out" =
      [("http://p", "out/a_b_c.pdf")] := by decide

/-! ## `SearchService`: accession-number extraction -/

/-- An ASCII uppercase letter, the `[A-Z]` class. -/
def charUpper (c : Char) : Bool := 'A' ≤ c && c ≤ 'Z'

/-- An ASCII digit, the `[0-9]` class. -/
def charDigit (c : Char) : Bool := '0' ≤ c && c ≤ '9'

/-- All non-overlapping matches of the fixed accession pattern
`PRJ[A-Z]{2}[0-9]{6}` in a character list, scanning left to right and
resuming just past each match, as the JavaScript global regex match does. -/
def accessionMatchesAux : List Char → List String
  | 'P' :: 'R' :: 'J' :: a :: b :: d1 :: d2 :: d3 :: d4 :: d5 :: d6 :: rest =>
      if charUpper a && charUpper b && charDigit d1 && charDigit d2 &&
          charDigit d3 && charDigit d4 && charDigit d5 && charDigit d6 then
        String.mk ['P', 'R', 'J', a, b, d1, d2, d3, d4, d5, d6] ::
          accessionMatchesAux rest
      else
        accessionMatchesAux ('R' :: 'J' :: a :: b :: d1 :: d2 :: d3 :: d4 :: d5 :: d6 :: rest)
  | _ :: cs => accessionMatchesAux cs
  | [] => []

/-- All matches of `PRJ[A-Z]{2}[0-9]{6}` in a string. -/
def accessionMatches (s : String) : List String :=
  accessionMatchesAux s.data

/-- `SearchService.extractAccessionNumbers`: render the result's URL through
`getContent` and return `content.match(/PRJ[A-Z]\x7b2\x7d[0-9]\x7b6\x7d/g) ?? null` —
the list of all accession matches, or `none` when there is no match. -/
def extractAccessionNumbers (getContent : String → String) (url : String) :
    Option (List String) :=
  match accessionMatches (getContent url) with
  | [] => none
  | l => some l

example :
    accessionMatches "CRISPR edits genome. PRJNA123456 was used. Confirmed." =
      ["PRJNA123456"] := by decide
example : accessionMatches "PRJNa123456 PRJAB12345" = [] := by decide
example : accessionMatches "PRJPRJAB123456" = ["PRJAB123456"] := by decide

/-! ## `SearchService`: data model and the accession transform -/

/-- An author record of `IGoogleScholarResult`. -/
structure GSAuthor where
  name : String
deriving DecidableEq, Repr

/-- The citation record of `IGoogleScholarResult`; `url` may be null. -/
structure GSCitation where
  url : Option String
  count : Nat
deriving DecidableEq, Repr

/-- `IGoogleScholarResult`, the record yielded by the Google Scholar cursor;
`url` may be null. -/
structure IGoogleScholarResult where
  title : String
  authors : List GSAuthor
  url : Option String
  paperUrl : String
  citation : GSCitation
  description : String
deriving DecidableEq, Repr

/-- `PaperWithAccessionEntity`: a paper entity enriched with the accession
numbers found on its page. -/
structure PaperWithAccessionEntity where
  title : String
  accessionNumbers : List String
  authors : List String
  url : String
  paperUrl : String
  citationUrl : String
  citationCount : Nat
  description : String
deriving DecidableEq, Repr

/-- The transform `searchPapersWithAccessionNumbers` passes to
`fetchPapers`: results with a null URL are filtered out before any renderer
call; otherwise the page is rendered and the result is kept only when
accession numbers were found.  The second component lists the URLs passed to
the renderer (and hence to the accession extractor). -/
def accessionMapResult (getContent : String → String)
    (result : IGoogleScholarResult) :
    Option PaperWithAccessionEntity × List String :=
  match result.url with
  | none => (none, [])
  | some u =>
      match extractAccessionNumbers getContent u with
      | none => (none, [u])
      | some ns =>
          (some { title := result.title
                  accessionNumbers := ns
                  authors := result.authors.map GSAuthor.name
                  url := u
                  paperUrl := result.paperUrl
                  citationUrl := result.citation.url.getD ""
                  citationCount := result.citation.count
                  description := result.description }, [u])

/-! ## `SearchService.fetchPapers` -/

/-- An observable event of one `fetchPapers` run: an invocation of the
per-result transform, or the `odysseus.close()` call. -/
inductive FetchEvent (R : Type) where
  | map (r : R)
  | close
deriving DecidableEq, Repr

/-- Whether an event is the `close` call. -/
def FetchEvent.isClose {R : Type} : FetchEvent R → Bool
  | .close => true
  | .map _ => false

/-- The inner `for` loop of `fetchPapers` over one result page: apply the
transform to each result, append a produced entity, and break as soon as the
accumulated count reaches a positive `maxItems`; a transform failure
propagates.  Returns the outcome together with the events so far. -/
def processPage {T R E : Type} (mapResult : R → Except E (Option T))
    (maxItems : Nat) (entities : List T) :
    List R → Except E (List T) × List (FetchEvent R)
  | [] => (.ok entities, [])
  | r :: rs =>
      match mapResult r with
      | .error e => (.error e, [.map r])
      | .ok o =>
          let entities' := match o with
            | some v => entities ++ [v]
            | none => entities
          if maxItems ≠ 0 ∧ maxItems ≤ entities'.length then
            (.ok entities', [.map r])
          else
            let res := processPage mapResult maxItems entities' rs
            (res.1, .map r :: res.2)

/-- The `while` loop of `fetchPapers` over the page sequence the cursor
yields: the loop runs while a page is available and the count is below a
positive `maxItems`, processes the page, and stops when the page has no
next-page capability (the list is exhausted). -/
def fetchLoop {T R E : Type} (mapResult : R → Except E (Option T))
    (maxItems : Nat) (entities : List T) :
    List (List R) → Except E (List T) × List (FetchEvent R)
  | [] => (.ok entities, [])
  | page :: rest =>
      if maxItems = 0 ∨ entities.length < maxItems then
        match processPage mapResult maxItems entities page with
        | (.error e, evs) => (.error e, evs)
        | (.ok entities', evs) =>
            match rest with
            | [] => (.ok entities', evs)
            | _ :: _ =>
                let res := fetchLoop mapResult maxItems entities' rest
                (res.1, evs ++ res.2)
      else (.ok entities, [])

/-- `SearchService.fetchPapers`: run the collection loop from an empty
entity list over the pages the cursor yields (an empty list stands for a
null search response), then call `odysseus.close()`; a transform failure
propagates before the close call. -/
def fetchPapers {T R E : Type} (mapResult : R → Except E (Option T))
    (maxItems : Nat) (pages : List (List R)) :
    Except E (List T) × List (FetchEvent R) :=
  match fetchLoop mapResult maxItems [] pages with
  | (.ok es, evs) => (.ok es, evs ++ [.close])
  | (.error e, evs) => (.error e, evs)

example :
    fetchPapers (fun r => (Except.ok (some r) : Except Unit (Option Nat)))
        2 [[1, 2, 3], [4]] =
      (.ok [1, 2], [.map 1, .map 2, .close]) := rfl
example :
    fetchPapers (fun r => (Except.ok (some r) : Except Unit (Option Nat)))
        0 [[1], [2]] =
      (.ok [1, 2], [.map 1, .map 2, .close]) := rfl
example :
    fetchPapers
        (fun r => if r = 2 then Except.error "boom" else .ok (some (r : Nat)))
        0 [[1, 2, 3]] =
      (.error "boom", [.map 1, .map 2]) := rfl

/-! ## Theorems -/

lemma processPage_length_le {T R E : Type} (f : R → Except E (Option T))
    (maxItems : Nat) (rs : List R) :
    ∀ (entities : List T), entities.length < maxItems →
      ∀ es evs, processPage f maxItems entities rs = (.ok es, evs) →
        es.length ≤ maxItems := by
  induction rs with
  | nil =>
      intro entities hlt es evs h
      simp only [processPage, Prod.mk.injEq, Except.ok.injEq] at h
      obtain ⟨h1, -⟩ := h
      subst h1
      omega
  | cons r rs ih =>
      intro entities hlt es evs h
      simp only [processPage] at h
      cases hm : f r with
      | error e =>
          rw [hm] at h
          simp at h
      | ok o =>
          rw [hm] at h
          cases o with
          | none =>
              simp only at h
              split at h
              · simp only [Prod.mk.injEq, Except.ok.injEq] at h
                omega
              · have h1 : (processPage f maxItems entities rs).1 = .ok es := by
                  have := congrArg Prod.fst h
                  simpa using this
                exact ih entities hlt es _ (by rw [← h1])
          | some v =>
              simp only at h
              split at h
              · rename_i hcond
                simp only [Prod.mk.injEq, Except.ok.injEq] at h
                have : es = entities ++ [v] := h.1.symm
                subst this
                simp only [List.length_append, List.length_singleton]
                omega
              · rename_i hcond
                have hne : maxItems ≠ 0 := by omega
                have hlt' : (entities ++ [v]).length < maxItems := by
                  simp only [not_and, not_le] at hcond
                  exact hcond hne
                have h1 : (processPage f maxItems (entities ++ [v]) rs).1 = .ok es := by
                  have := congrArg Prod.fst h
                  simpa using this
                exact ih (entities ++ [v]) hlt' es _ (by rw [← h1])

lemma fetchLoop_length_le {T R E : Type} (f : R → Except E (Option T))
    (maxItems : Nat) (pages : List (List R)) :
    ∀ (entities : List T), entities.length ≤ maxItems → maxItems ≠ 0 →
      ∀ es evs, fetchLoop f maxItems entities pages = (.ok es, evs) →
        es.length ≤ maxItems := by
  induction pages with
  | nil =>
      intro entities hle hne es evs h
      simp only [fetchLoop, Prod.mk.injEq, Except.ok.injEq] at h
      obtain ⟨h1, -⟩ := h
      subst h1
      omega
  | cons page rest ih =>
      intro entities hle hne es evs h
      simp only [fetchLoop] at h
      split at h
      · rename_i hcond
        have hlt : entities.length < maxItems := by omega
        cases hpp : processPage f maxItems entities page with
        | mk res pevs =>
            rw [hpp] at h
            cases res with
            | error e => simp at h
            | ok entities' =>
                have hlen' : entities'.length ≤ maxItems :=
                  processPage_length_le f maxItems page entities hlt entities' pevs hpp
                cases rest with
                | nil =>
                    simp only [Prod.mk.injEq, Except.ok.injEq] at h
                    obtain ⟨h1, -⟩ := h
                    subst h1
                    omega
                | cons p2 r2 =>
                    simp only at h
                    have h1 : (fetchLoop f maxItems entities' (p2 :: r2)).1 = .ok es := by
                      have := congrArg Prod.fst h
                      simpa using this
                    exact ih entities' hlen' hne es _ (by rw [← h1])
      · simp only [Prod.mk.injEq, Except.ok.injEq] at h
        obtain ⟨h1, -⟩ := h
        subst h1
        omega

/-- C1: for every transform, every page sequence yielded by the cursor and
every positive `maxItems`, when `fetchPapers` returns a list it has length
at most `maxItems`. -/
theorem fetchPapers_length_le {T R E : Type} (mapResult : R → Except E (Option T))
    (maxItems : Nat) (pages : List (List R)) (es : List T)
    (evs : List (FetchEvent R)) (hpos : 0 < maxItems)
    (hok : fetchPapers mapResult maxItems pages = (.ok es, evs)) :
    es.length ≤ maxItems := by
  unfold fetchPapers at hok
  cases hfl : fetchLoop mapResult maxItems ([] : List T) pages with
  | mk res levs =>
      rw [hfl] at hok
      cases res with
      | error e => simp at hok
      | ok es0 =>
          simp only [Prod.mk.injEq, Except.ok.injEq] at hok
          have : es0 = es := hok.1
          subst this
          exact fetchLoop_length_le mapResult maxItems pages [] (by simp)
            (by omega) es0 levs hfl

/-- Witness for C1 at a concrete cursor: two pages, three results on the
first, target count 2. -/
theorem fetchPapers_length_le_witness : ([1, 2] : List Nat).length ≤ 2 :=
  fetchPapers_length_le (fun r => (Except.ok (some r) : Except Unit (Option Nat)))
    2 [[1, 2, 3], [4]] [1, 2] [.map 1, .map 2, .close] (by decide) rfl

lemma processPage_events_no_close {T R E : Type} (f : R → Except E (Option T))
    (maxItems : Nat) (rs : List R) :
    ∀ (entities : List T) ev, ev ∈ (processPage f maxItems entities rs).2 →
      ev.isClose = false := by
  induction rs with
  | nil => intro entities ev hev; simp [processPage] at hev
  | cons r rs ih =>
      intro entities ev hev
      simp only [processPage] at hev
      cases hm : f r with
      | error e =>
          rw [hm] at hev
          simp only [List.mem_singleton] at hev
          subst hev
          rfl
      | ok o =>
          rw [hm] at hev
          simp only at hev
          split at hev
          · simp only [List.mem_singleton] at hev
            subst hev
            rfl
          · simp only [List.mem_cons] at hev
            rcases hev with hev | hev
            · subst hev; rfl
            · exact ih _ ev hev

lemma fetchLoop_events_no_close {T R E : Type} (f : R → Except E (Option T))
    (maxItems : Nat) (pages : List (List R)) :
    ∀ (entities : List T) ev, ev ∈ (fetchLoop f maxItems entities pages).2 →
      ev.isClose = false := by
  induction pages with
  | nil => intro entities ev hev; simp [fetchLoop] at hev
  | cons page rest ih =>
      intro entities ev hev
      simp only [fetchLoop] at hev
      split at hev
      · cases hpp : processPage f maxItems entities page with
        | mk res pevs =>
            rw [hpp] at hev
            cases res with
            | error e =>
                simp only at hev
                have : ev ∈ (processPage f maxItems entities page).2 := by
                  rw [hpp]; exact hev
                exact processPage_events_no_close f maxItems page entities ev this
            | ok entities' =>
                cases rest with
                | nil =>
                    simp only at hev
                    have : ev ∈ (processPage f maxItems entities page).2 := by
                      rw [hpp]; exact hev
                    exact processPage_events_no_close f maxItems page entities ev this
                | cons p2 r2 =>
                    simp only [List.mem_append] at hev
                    rcases hev with hev | hev
                    · have : ev ∈ (processPage f maxItems entities page).2 := by
                        rw [hpp]; exact hev
                      exact processPage_events_no_close f maxItems page entities ev this
                    · exact ih entities' ev hev
      · simp at hev

/-- C9: when the transform never fails, the event trace of `fetchPapers`
contains exactly one `close`, and it is the last event, i.e. it happens
after the collection loop has terminated; when the transform fails partway,
the trace contains no `close` at all. -/
theorem fetchPapers_close_once {T R E : Type} (mapResult : R → Except E (Option T))
    (maxItems : Nat) (pages : List (List R)) :
    (∀ es evs, fetchPapers mapResult maxItems pages = (.ok es, evs) →
      evs.filter FetchEvent.isClose = [.close] ∧ evs.getLast? = some .close) ∧
    (∀ e evs, fetchPapers mapResult maxItems pages = (.error e, evs) →
      evs.filter FetchEvent.isClose = []) := by
  constructor
  · intro es evs h
    unfold fetchPapers at h
    cases hfl : fetchLoop mapResult maxItems ([] : List T) pages with
    | mk res levs =>
        rw [hfl] at h
        cases res with
        | error e => simp at h
        | ok es0 =>
            simp only [Prod.mk.injEq, Except.ok.injEq] at h
            obtain ⟨-, h2⟩ := h
            subst h2
            have hno : levs.filter FetchEvent.isClose = [] := by
              rw [List.filter_eq_nil_iff]
              intro ev hev
              have : ev ∈ (fetchLoop mapResult maxItems ([] : List T) pages).2 := by
                rw [hfl]; exact hev
              simp [fetchLoop_events_no_close mapResult maxItems pages [] ev this]
            constructor
            · rw [List.filter_append, hno]
              rfl
            · rw [List.getLast?_append]
              rfl
  · intro e evs h
    unfold fetchPapers at h
    cases hfl : fetchLoop mapResult maxItems ([] : List T) pages with
    | mk res levs =>
        rw [hfl] at h
        cases res with
        | ok es0 => simp at h
        | error e0 =>
            simp only [Prod.mk.injEq, Except.error.injEq] at h
            obtain ⟨-, h2⟩ := h
            subst h2
            rw [List.filter_eq_nil_iff]
            intro ev hev
            have : ev ∈ (fetchLoop mapResult maxItems ([] : List T) pages).2 := by
              rw [hfl]; exact hev
            simp [fetchLoop_events_no_close mapResult maxItems pages [] ev this]

/-- Witness for C9: a run that terminates normally has exactly one trailing
`close` event; a run whose transform fails has none. -/
theorem fetchPapers_close_once_witness :
    (([FetchEvent.map 1, FetchEvent.map 2, FetchEvent.close] :
        List (FetchEvent Nat)).filter FetchEvent.isClose = [.close] ∧
      ([FetchEvent.map 1, FetchEvent.map 2, FetchEvent.close] :
        List (FetchEvent Nat)).getLast? = some .close) ∧
    ([FetchEvent.map 1, FetchEvent.map 2] :
        List (FetchEvent Nat)).filter FetchEvent.isClose = [] :=
  ⟨(fetchPapers_close_once
      (fun r => (Except.ok (some r) : Except Unit (Option Nat))) 2
      [[1, 2, 3], [4]]).1 [1, 2] [.map 1, .map 2, .close] rfl,
   (fetchPapers_close_once
      (fun r => if r = 2 then Except.error "boom" else .ok (some (r : Nat))) 0
      [[1, 2, 3]]).2 "boom" [.map 1, .map 2] rfl⟩

/-- C10: a search result whose URL is null is filtered out by the accession
transform with no renderer (and hence no accession-extractor) invocation,
and the collection loop appends nothing for it. -/
theorem accessionMapResult_null_url (getContent : String → String)
    (result : IGoogleScholarResult) (h : result.url = none) :
    accessionMapResult getContent result = (none, []) ∧
    ∀ (maxItems : Nat) (entities : List PaperWithAccessionEntity),
      processPage
          (fun r => (Except.ok (accessionMapResult getContent r).1 :
            Except Unit (Option PaperWithAccessionEntity)))
          maxItems entities [result] =
        (.ok entities, [.map result]) := by
  have h0 : accessionMapResult getContent result = (none, []) := by
    unfold accessionMapResult
    rw [h]
  refine ⟨h0, ?_⟩
  intro maxItems entities
  simp only [processPage, h0]
  split
  · rfl
  · rfl

/-- Witness for C10 at a concrete result record with a null URL. -/
theorem accessionMapResult_null_url_witness :
    accessionMapResult (fun _ => "PRJNA123456")
        ⟨"t", [⟨"a"⟩], none, "p", ⟨none, 3⟩, "d"⟩ = (none, []) :=
  (accessionMapResult_null_url (fun _ => "PRJNA123456")
    ⟨"t", [⟨"a"⟩], none, "p", ⟨none, 3⟩, "d"⟩ rfl).1

/-- C7: accession extraction yields `none` exactly when the rendered content
has no occurrence of the pattern, and any returned list is the full match
list and is non-empty. -/
theorem extractAccessionNumbers_nonempty (getContent : String → String)
    (url : String) :
    (extractAccessionNumbers getContent url = none ↔
      accessionMatches (getContent url) = []) ∧
    ∀ l, extractAccessionNumbers getContent url = some l →
      l = accessionMatches (getContent url) ∧ l ≠ [] := by
  unfold extractAccessionNumbers
  cases h : accessionMatches (getContent url) with
  | nil => simp
  | cons a as => simp

/-- Witness for C7 on the specification's example content. -/
theorem extractAccessionNumbers_nonempty_witness :
    (["PRJNA123456"] : List String) =
      accessionMatches
        ((fun _ => "CRISPR edits genome. PRJNA123456 was used. Confirmed.") "u") ∧
    (["PRJNA123456"] : List String) ≠ [] :=
  (extractAccessionNumbers_nonempty
    (fun _ => "CRISPR edits genome. PRJNA123456 was used. Confirmed.") "u").2
    ["PRJNA123456"] (by decide)

/-- C8: no download call for a non-`pdf` source; exactly one call for a
`pdf` source, with the destination built from the output directory, the
sanitised title and the source's extension. -/
theorem download_calls (m : IPaperMetadata) (outputDir : String) :
    (m.paper.type ≠ "pdf" → download m outputDir = []) ∧
    (m.paper.type = "pdf" → download m outputDir =
      [(m.paper.url,
        outputDir ++ "/" ++ sanitizeTitle m.title ++ "." ++ m.paper.type)]) := by
  unfold download
  constructor
  · intro h
    simp [h]
  · intro h
    simp [h]

/-- Witness for C8: one pdf reference and one html reference. -/
theorem download_calls_witness :
    download ⟨"a b/c", "u", ⟨"pdf", "http://p"⟩⟩ "out" =
      [("http://p",
        "out" ++ "/" ++ sanitizeTitle "a b/c" ++ "." ++ "pdf")] ∧
    download ⟨"a b/c", "u", ⟨"html", "http://p"⟩⟩ "out" = [] :=
  ⟨(download_calls ⟨"a b/c", "u", ⟨"pdf", "http://p"⟩⟩ "out").2 rfl,
   (download_calls ⟨"a b/c", "u", ⟨"html", "http://p"⟩⟩ "out").1 (by decide)⟩

/-- A renderer that succeeds on every URL, tagging its output. -/
def odyOk : Odysseus := ⟨fun url _ _ => .ok ("web:" ++ url)⟩

/-- A renderer that fails on every URL. -/
def odyFail : Odysseus := ⟨fun _ _ _ => .error "network error"⟩

/-- A PDF extractor that succeeds on every URL, tagging its output. -/
def pdfOk : PdfService := ⟨fun url => .ok ("pdf:" ++ url)⟩

/-- A PDF extractor that fails on every URL. -/
def pdfFail : PdfService := ⟨fun _ => .error "network error"⟩

/-- C6: in legacy mode (`processPdf` disabled) the text content is the
renderer's output for the main URL verbatim (the empty string for an empty
main URL), independent of the source descriptor. -/
theorem getTextContent_legacy (config : IPaperServiceConfig)
    (odysseus : Odysseus) (pdfService : PdfService) (m : IPaperMetadata)
    (h : config.processPdf = false) :
    getTextContent config odysseus pdfService m =
      (if m.url ≠ "" then getWebContent config odysseus m.url else .ok "") ∧
    ∀ paper2 : PaperSource,
      getTextContent config odysseus pdfService ⟨m.title, m.url, paper2⟩ =
        getTextContent config odysseus pdfService m := by
  constructor
  · unfold getTextContent
    simp [h]
  · intro paper2
    unfold getTextContent
    simp [h]

/-- Witness for C6 at a concrete reference whose source descriptor is a pdf
the renderer would never see. -/
theorem getTextContent_legacy_witness :
    getTextContent ⟨false, false⟩ odyOk pdfOk ⟨"t", "https://x", ⟨"pdf", "p.pdf"⟩⟩ =
      (if ("https://x" : String) ≠ "" then
        getWebContent ⟨false, false⟩ odyOk "https://x" else .ok "") :=
  (getTextContent_legacy ⟨false, false⟩ odyOk pdfOk
    ⟨"t", "https://x", ⟨"pdf", "p.pdf"⟩⟩ rfl).1

/-- C3: in source-aware mode, when the primary source read fails (PDF
extraction for a `pdf` source, rendering of the non-empty source URL
otherwise), the result equals what legacy mode produces for the same
reference. -/
theorem getTextContent_fallback_eq_legacy (config : IPaperServiceConfig)
    (odysseus : Odysseus) (pdfService : PdfService) (m : IPaperMetadata)
    (e : String) (hp : config.processPdf = true)
    (h : (m.paper.type = "pdf" ∧ getPdfContent pdfService m.paper.url = .error e) ∨
      (m.paper.type ≠ "pdf" ∧ m.paper.url ≠ "" ∧
        getWebContent config odysseus m.paper.url = .error e)) :
    getTextContent config odysseus pdfService m =
      getTextContent ⟨false, config.skipCaptcha⟩ odysseus pdfService m := by
  have hweb : getWebContent ⟨false, config.skipCaptcha⟩ odysseus m.url =
      getWebContent config odysseus m.url := rfl
  unfold getTextContent
  rcases h with ⟨ht, he⟩ | ⟨ht, hu, he⟩
  · simp only [hp, Bool.not_true, Bool.false_eq_true, if_false, ht, if_true, he]
    by_cases hmu : m.url = "" <;> simp [hmu, hweb]
  · simp only [hp, Bool.not_true, Bool.false_eq_true, if_false, ht, hu, he]
    by_cases hmu : m.url = "" <;> simp [hmu, hweb, ht, hu, he]

/-- Witness for C3 on the specification's example: a pdf source whose
extraction fails with a network error falls back to the legacy result. -/
theorem getTextContent_fallback_eq_legacy_witness :
    getTextContent ⟨true, false⟩ odyOk pdfFail
        ⟨"t", "https://x", ⟨"pdf", "https://x/p.pdf"⟩⟩ =
      getTextContent ⟨false, false⟩ odyOk pdfFail
        ⟨"t", "https://x", ⟨"pdf", "https://x/p.pdf"⟩⟩ :=
  getTextContent_fallback_eq_legacy ⟨true, false⟩ odyOk pdfFail
    ⟨"t", "https://x", ⟨"pdf", "https://x/p.pdf"⟩⟩ "network error" rfl
    (Or.inl ⟨rfl, rfl⟩)

/-- Counterexample to C2 as stated: in legacy mode the main-URL render is
outside any try/catch, so a renderer failure propagates out of
`getTextContent` instead of being converted into a fallback or an empty
string. -/
theorem getTextContent_throws_counterexample :
    getTextContent ⟨false, false⟩ odyFail pdfOk ⟨"t", "https://x", ⟨"html", ""⟩⟩ =
      .error "network error" := rfl

/-- C2 amended: `getTextContent` either returns text, or propagates exactly
the main-URL renderer's failure; a failure of the primary source read (PDF
extraction or source-URL render) never propagates — it is caught and
converted into the main-URL fallback or the empty string. -/
theorem getTextContent_error_only_from_main (config : IPaperServiceConfig)
    (odysseus : Odysseus) (pdfService : PdfService) (m : IPaperMetadata) :
    (∃ s, getTextContent config odysseus pdfService m = .ok s) ∨
    getTextContent config odysseus pdfService m =
      getWebContent config odysseus m.url := by
  unfold getTextContent
  by_cases hp : config.processPdf
  · simp only [hp, Bool.not_true, Bool.false_eq_true, if_false]
    by_cases ht : m.paper.type = "pdf"
    · simp only [ht, if_true]
      cases hpdf : getPdfContent pdfService m.paper.url with
      | ok s => exact Or.inl ⟨s, rfl⟩
      | error e =>
          by_cases hmu : m.url = ""
          · exact Or.inl ⟨"", by simp [hmu]⟩
          · exact Or.inr (by simp [hmu])
    · simp only [ht, if_false]
      by_cases hsu : m.paper.url = ""
      · simp only [hsu]
        by_cases hmu : m.url = ""
        · exact Or.inl ⟨"", by simp [hmu]⟩
        · exact Or.inr (by simp [hmu])
      · cases hweb : getWebContent config odysseus m.paper.url with
        | ok s => exact Or.inl ⟨s, by simp [hsu, hweb]⟩
        | error e =>
            by_cases hmu : m.url = ""
            · exact Or.inl ⟨"", by simp [hsu, hweb, hmu]⟩
            · exact Or.inr (by simp [hsu, hweb, hmu])
  · simp only [hp]
    by_cases hmu : m.url = ""
    · exact Or.inl ⟨"", by simp [hmu, hp]⟩
    · exact Or.inr (by simp [hmu, hp])

lemma mem_of_head?_eq {α : Type} (l : List α) (a : α) (h : l.head? = some a) :
    a ∈ l := by
  have hc := List.eq_cons_of_mem_head?
    (show a ∈ l.head? by simp [Option.mem_def, h])
  rw [hc]
  exact List.mem_cons_self a _

lemma mem_of_getLast?_eq {α : Type} (l : List α) (a : α) (h : l.getLast? = some a) :
    a ∈ l := by
  obtain ⟨hne, ha⟩ :=
    List.mem_getLast?_eq_getLast
      (show a ∈ l.getLast? by simp [Option.mem_def, h])
  rw [ha]
  exact List.getLast_mem hne

lemma jsSliceIdx_natCast (len n : Nat) : jsSliceIdx len (n : Int) = min n len := by
  unfold jsSliceIdx
  rw [if_neg (by omega)]
  rfl

/-- Counterexample to C4 as stated: on a document with no period at all,
`indexOf` returns `-1`, the slice end becomes `0` and the computed sentence
is empty, while the claimed sentence extends to the document end. -/
theorem getSentence_claim_counterexample :
    getSentence "hello".data 1 = [] ∧
    sentenceClaimed "hello".data 1 = "hello".data ∧
    getSentence "hello".data 1 ≠ sentenceClaimed "hello".data 1 := by decide

/-- C4 amended: the sentence the code computes starts right after the
nearest period at or before the match index (or the document start), and —
when a period exists at or after the match index — ends right after the
nearest such period, trimmed; when no period follows, the result is the
empty string rather than the document tail. -/
theorem getSentence_eq_amended (text : List Char) (index : Nat) :
    getSentence text index = sentenceAmended text index := by
  have hB : jsIndexOf text '.' index =
      (match firstPeriodGe text index with
        | some j => (j : Int)
        | none => -1) := rfl
  have hA : jsLastIndexOf text '.' index =
      (match lastPeriodLe text index with
        | some i => (i : Int)
        | none => -1) := rfl
  unfold getSentence sentenceAmended jsSlice
  rw [hB, hA]
  cases hf : firstPeriodGe text index with
  | none =>
      have h0 : jsSliceIdx text.length (-1 + 1) = 0 := by
        unfold jsSliceIdx
        norm_num
      simp only [h0, List.take_zero, List.drop_nil, jsTrim, List.dropWhile_nil,
        List.reverse_nil]
  | some j =>
      have hjmem : j ∈ (List.range text.length).filter
          (fun i => decide (index ≤ i) && decide (text.getD i ' ' = '.')) :=
        mem_of_head?_eq _ _ hf
      have hjlt : j < text.length := by
        have := List.mem_filter.1 hjmem
        simpa using List.mem_range.1 this.1
      have hend : jsSliceIdx text.length ((j : Int) + 1) = j + 1 := by
        have : ((j : Int) + 1) = ((j + 1 : Nat) : Int) := by push_cast; ring
        rw [this, jsSliceIdx_natCast]
        omega
      cases hl : lastPeriodLe text index with
      | none =>
          have h0 : jsSliceIdx text.length (-1 + 1) = 0 := by
            unfold jsSliceIdx
            norm_num
          simp only [hend, h0, List.drop_zero]
      | some i =>
          have himem : i ∈ (List.range text.length).filter
              (fun k => decide (k ≤ index) && decide (text.getD k ' ' = '.')) :=
            mem_of_getLast?_eq _ _ hl
          have hilt : i < text.length := by
            have := List.mem_filter.1 himem
            simpa using List.mem_range.1 this.1
          have hstart : jsSliceIdx text.length ((i : Int) + 1) = i + 1 := by
            have : ((i : Int) + 1) = ((i + 1 : Nat) : Int) := by push_cast; ring
            rw [this, jsSliceIdx_natCast]
            omega
          simp only [hend, hstart]

lemma firstSeenAux_not_mem (l : List String) :
    ∀ (seen : List String) (k : String), k ∈ firstSeenAux seen l → k ∉ seen := by
  induction l with
  | nil => intro seen k hk; simp [firstSeenAux] at hk
  | cons x xs ih =>
      intro seen k hk
      simp only [firstSeenAux] at hk
      split at hk
      · exact ih seen k hk
      · rename_i hx
        rcases List.mem_cons.1 hk with rfl | hk
        · exact hx
        · intro hks
          exact ih (x :: seen) k hk (List.mem_cons_of_mem x hks)

lemma firstSeenAux_congr (l : List String) :
    ∀ (s1 s2 : List String), (∀ x, x ∈ s1 ↔ x ∈ s2) →
      firstSeenAux s1 l = firstSeenAux s2 l := by
  induction l with
  | nil => intro s1 s2 h; rfl
  | cons x xs ih =>
      intro s1 s2 h
      simp only [firstSeenAux]
      by_cases hx : x ∈ s1
      · rw [if_pos hx, if_pos ((h x).1 hx)]
        exact ih s1 s2 h
      · rw [if_neg hx, if_neg (fun hc => hx ((h x).2 hc))]
        congr 1
        apply ih
        intro y
        simp only [List.mem_cons]
        exact or_congr Iff.rfl (h y)

lemma insertSentence_mem (acc : List (String × List String)) (key : String)
    (s : String) (h : key ∈ acc.map Prod.fst) :
    insertSentence acc key s =
      acc.map (fun p => if p.1 = key then (p.1, p.2 ++ [s]) else p) := by
  unfold insertSentence
  rw [if_pos]
  rw [List.any_eq_true]
  obtain ⟨p, hp, hp1⟩ := List.mem_map.1 h
  exact ⟨p, hp, by simp [hp1]⟩

lemma insertSentence_not_mem (acc : List (String × List String)) (key : String)
    (s : String) (h : key ∉ acc.map Prod.fst) :
    insertSentence acc key s = acc ++ [(key, [s])] := by
  unfold insertSentence
  rw [if_neg]
  rw [List.any_eq_true]
  rintro ⟨p, hp, hp1⟩
  exact h (List.mem_map.2 ⟨p, hp, by simpa using hp1⟩)

lemma foldl_insertSentence (sent : String × Nat → String) :
    ∀ (ms : List (String × Nat)) (acc : List (String × List String)),
      (acc.map Prod.fst).Nodup →
      ms.foldl (fun a m => insertSentence a m.1 (sent m)) acc =
        acc.map
          (fun p => (p.1, p.2 ++ (ms.filter (fun m => m.1 = p.1)).map sent)) ++
        (firstSeenAux (acc.map Prod.fst) (ms.map Prod.fst)).map
          (fun k => (k, (ms.filter (fun m => m.1 = k)).map sent)) := by
  intro ms
  induction ms with
  | nil =>
      intro acc hacc
      simp [firstSeenAux]
  | cons m rest ih =>
      intro acc hacc
      simp only [List.foldl_cons, List.map_cons]
      by_cases hmem : m.1 ∈ acc.map Prod.fst
      · rw [insertSentence_mem acc m.1 (sent m) hmem]
        have hkeys : (acc.map (fun p =>
            if p.1 = m.1 then (p.1, p.2 ++ [sent m]) else p)).map Prod.fst =
            acc.map Prod.fst := by
          rw [List.map_map]
          apply List.map_congr_left
          intro p _
          by_cases h1 : p.1 = m.1 <;> simp [h1]
        have hih := ih (acc.map (fun p =>
            if p.1 = m.1 then (p.1, p.2 ++ [sent m]) else p))
          (by rw [hkeys]; exact hacc)
        rw [hih, hkeys]
        have hseen : firstSeenAux (acc.map Prod.fst) (m.1 :: rest.map Prod.fst) =
            firstSeenAux (acc.map Prod.fst) (rest.map Prod.fst) := by
          simp only [firstSeenAux, if_pos hmem]
        rw [hseen]
        congr 1
        · rw [List.map_map]
          apply List.map_congr_left
          intro p _
          by_cases h1 : p.1 = m.1
          · simp only [Function.comp_apply, h1, if_pos rfl, List.filter_cons]
            rw [if_pos (by simp [h1])]
            simp [h1, List.append_assoc]
          · simp only [Function.comp_apply, if_neg h1, List.filter_cons]
            rw [if_neg (by simp only [decide_eq_true_eq]; exact fun hc => h1 hc.symm)]
        · apply List.map_congr_left
          intro k hk
          have hkn : k ∉ acc.map Prod.fst :=
            firstSeenAux_not_mem (rest.map Prod.fst) (acc.map Prod.fst) k hk
          have hkm : k ≠ m.1 := fun hc => hkn (hc ▸ hmem)
          rw [List.filter_cons,
            if_neg (by simp only [decide_eq_true_eq]; exact fun hc => hkm hc.symm)]
      · rw [insertSentence_not_mem acc m.1 (sent m) hmem]
        have hkeys : (acc ++ [(m.1, [sent m])]).map Prod.fst =
            acc.map Prod.fst ++ [m.1] := by simp
        have hnodup : ((acc ++ [(m.1, [sent m])]).map Prod.fst).Nodup := by
          rw [hkeys]
          simp only [List.nodup_append, List.nodup_cons, List.not_mem_nil,
            not_false_iff, List.nodup_nil, and_true, true_and]
          constructor
          · exact hacc
          · intro a ha hb
            simp only [List.mem_singleton] at hb
            subst hb
            exact hmem ha
        have hih := ih (acc ++ [(m.1, [sent m])]) hnodup
        rw [hih, hkeys]
        have hseenA : firstSeenAux (acc.map Prod.fst ++ [m.1]) (rest.map Prod.fst) =
            firstSeenAux (m.1 :: acc.map Prod.fst) (rest.map Prod.fst) := by
          apply firstSeenAux_congr
          intro x
          simp [or_comm]
        have hseenB : firstSeenAux (acc.map Prod.fst) (m.1 :: rest.map Prod.fst) =
            m.1 :: firstSeenAux (m.1 :: acc.map Prod.fst) (rest.map Prod.fst) := by
          simp only [firstSeenAux, if_neg hmem]
        rw [hseenA, hseenB]
        have hmapAcc : acc.map
              (fun p => (p.1, p.2 ++ (rest.filter (fun x => x.1 = p.1)).map sent)) =
            acc.map
              (fun p => (p.1, p.2 ++
                ((m :: rest).filter (fun x => x.1 = p.1)).map sent)) := by
          apply List.map_congr_left
          intro p hp
          have hpk : p.1 ∈ acc.map Prod.fst := List.mem_map.2 ⟨p, hp, rfl⟩
          have hpm : p.1 ≠ m.1 := fun hc => hmem (hc ▸ hpk)
          rw [List.filter_cons,
            if_neg (by simp only [decide_eq_true_eq]; exact fun hc => hpm hc.symm)]
        have htail : (firstSeenAux (m.1 :: acc.map Prod.fst) (rest.map Prod.fst)).map
              (fun k => (k, (rest.filter (fun x => x.1 = k)).map sent)) =
            (firstSeenAux (m.1 :: acc.map Prod.fst) (rest.map Prod.fst)).map
              (fun k => (k, ((m :: rest).filter (fun x => x.1 = k)).map sent)) := by
          apply List.map_congr_left
          intro k hk
          have hkn : k ∉ m.1 :: acc.map Prod.fst :=
            firstSeenAux_not_mem (rest.map Prod.fst) (m.1 :: acc.map Prod.fst) k hk
          have hkm : k ≠ m.1 := fun hc => hkn (hc ▸ List.mem_cons_self m.1 _)
          rw [List.filter_cons,
            if_neg (by simp only [decide_eq_true_eq]; exact fun hc => hkm hc.symm)]
        simp only [List.map_append, List.map_cons, List.map_nil]
        rw [hmapAcc, htail]
        simp [List.filter_cons]

lemma findInPaperCore_eq_canonical (content : List Char)
    (ms : List (String × Nat)) :
    findInPaperCore content ms = canonicalGroup content ms := by
  unfold findInPaperCore canonicalGroup
  have h := foldl_insertSentence
    (fun m => String.mk (getSentence content m.2)) ms [] (by simp)
  simpa using h

/-- C5: `findInPaper` groups matches by the exact matched literal — one
entry per distinct literal in order of first occurrence, whose sentence list
has one entry per occurrence of that literal in first-to-last order with
duplicates allowed (so a literal matched twice yields one entry with a
two-element sentence list). -/
theorem findInPaper_groups (config : IPaperServiceConfig) (odysseus : Odysseus)
    (pdfService : PdfService)
    (matchAll : String → String → List (String × Nat)) (m : IPaperMetadata)
    (findRegex : String) :
    findInPaper config odysseus pdfService matchAll m findRegex =
      match getTextContent config odysseus pdfService m with
      | .error _ => []
      | .ok content => canonicalGroup content.data (matchAll findRegex content) := by
  unfold findInPaper
  cases getTextContent config odysseus pdfService m with
  | error e => rfl
  | ok content =>
      exact findInPaperCore_eq_canonical content.data (matchAll findRegex content)
